import Mathlib

/-!
Shallow embedding of the synchronization core of `src/database.py`
(class `DatabaseManager`): the local/remote row stores, the per-record
mutation operations, the push/pull sync engine and `full_sync`.

Modelling conventions:
* SQL TEXT columns are `String`; timestamps are the ISO strings produced by
  `datetime.utcnow().isoformat()` and are compared, as in the Python source,
  with the lexicographic code-point order Python applies to `str` values,
  embedded below as the computable comparison `tsLt`.
* SQL INTEGER flags (`is_deleted`, `synced`) are `Bool` (stored as 0/1).
* The SQL REAL column `weight` is opaque payload to every operation here
  (it is only ever copied verbatim), so it is carried as `Int`.
* Each table is a list of rows; `INSERT OR REPLACE` keyed by the primary key
  is `upsertBy`, `UPDATE ... WHERE id = ?` is `setBy`.
* Nondeterministic inputs of an operation are explicit parameters: the
  generated UUIDs (`pet_id`, `log_id`), the clock reading (`now`), whether the
  remote connection attempt succeeds (`connOk`), and whether a given remote
  write succeeds (`remoteOk`, or a per-record oracle for the batch loops).
* Exceptions are modelled by the operation's result value: every Python
  method here wraps its body in try/except and returns a value, so no
  exception escapes any of the embedded operations.
* `pull_from_remote`'s INSERT OR REPLACE statement carries 11 placeholders
  while the bound `SELECT *` row has 12 values; the driver binds positionally
  and the surplus trailing value (the remote row's `sync_status`) is ignored,
  the `sync_status` column receiving the literal 'synced'.  The row written
  is therefore the remote row's contents with `sync_status := "synced"`.
-/

/-- A value bindable into a SQL statement (the payload of `**kwargs`). -/
inductive SqlVal
  | s (v : String)
  | i (v : Int)
deriving Repr, DecidableEq

/-- A row of the `users` table (schema in `_create_tables`). -/
structure UserRow where
  id : String
  username : String
  password_hash : String
  created_at : String
  updated_at : String
  is_deleted : Bool
  sync_status : String
deriving Repr, DecidableEq

/-- A row of the `pets` table (schema in `_create_tables`). -/
structure PetRow where
  id : String
  user_id : String
  name : String
  species : String
  breed : String
  age : Int
  weight : Int
  notes : String
  created_at : String
  updated_at : String
  is_deleted : Bool
  sync_status : String
deriving Repr, DecidableEq

/-- A row of the `sync_log` journal table. -/
structure LogRow where
  id : String
  table_name : String
  record_id : String
  operation : String
  timestamp : String
  synced : Bool
deriving Repr, DecidableEq

/-- One database (the local one, or the remote one). -/
structure DB where
  users : List UserRow
  pets : List PetRow
  sync_log : List LogRow
deriving Repr, DecidableEq

def DB.empty : DB := ⟨[], [], []⟩

/-- The state of a `DatabaseManager`: local store, remote store, and the
`_is_online` flag. -/
structure DBM where
  local_db : DB
  remote_db : DB
  is_online : Bool
deriving Repr, DecidableEq

/-- `INSERT OR REPLACE` keyed by `key` (the rows of a table have unique
primary keys, so replacing the first match is REPLACE semantics). -/
def upsertBy {α : Type} (key : α → String) : List α → α → List α
  | [], x => [x]
  | y :: rest, x => if key y == key x then x :: rest else y :: upsertBy key rest x

/-- `UPDATE ... SET (f) WHERE key = k`. -/
def setBy {α : Type} (key : α → String) (k : String) (f : α → α) (l : List α) : List α :=
  l.map fun y => if key y == k then f y else y

/-- `_log_change`: append one journal entry with `synced = 0`.  The journal
timestamp is a fresh clock reading, modelled by the same `now` the caller
stamped the row with. -/
def log_change (db : DB) (log_id table record_id operation now : String) : DB :=
  { db with sync_log := db.sync_log ++ [⟨log_id, table, record_id, operation, now, false⟩] }

/-- `get_pet_by_id`: `WHERE id = ? AND is_deleted = 0`. -/
def get_pet_by_id (db : DB) (pet_id : String) : Option PetRow :=
  db.pets.find? fun p => p.id == pet_id && p.is_deleted == false

/-- `_sync_user_to_remote`: read the local row excluding `sync_status`,
write it remotely with the literal 'synced', then mark the local row synced.
`remoteOk` is whether the remote write succeeds; on failure the caught
exception leaves both stores unchanged and `False` is returned. -/
def sync_user_to_remote (s : DBM) (user_id : String) (remoteOk : Bool) : Bool × DBM :=
  if s.is_online = false then (false, s)
  else
    match s.local_db.users.find? (fun u => u.id == user_id) with
    | none => (false, s)
    | some u =>
      if remoteOk then
        let rdb := { s.remote_db with
          users := upsertBy (fun v => v.id) s.remote_db.users { u with sync_status := "synced" } }
        let ldb := { s.local_db with
          users := setBy (fun v => v.id) user_id (fun v => { v with sync_status := "synced" })
            s.local_db.users }
        (true, { s with remote_db := rdb, local_db := ldb })
      else (false, s)

/-- `_sync_pet_to_remote`: same shape as `_sync_user_to_remote`. -/
def sync_pet_to_remote (s : DBM) (pet_id : String) (remoteOk : Bool) : Bool × DBM :=
  if s.is_online = false then (false, s)
  else
    match s.local_db.pets.find? (fun p => p.id == pet_id) with
    | none => (false, s)
    | some p =>
      if remoteOk then
        let rdb := { s.remote_db with
          pets := upsertBy (fun q => q.id) s.remote_db.pets { p with sync_status := "synced" } }
        let ldb := { s.local_db with
          pets := setBy (fun q => q.id) pet_id (fun q => { q with sync_status := "synced" })
            s.local_db.pets }
        (true, { s with remote_db := rdb, local_db := ldb })
      else (false, s)

/-- `create_pet`: INSERT the new row with `sync_status='pending'` (the INSERT
raises only on a duplicate primary key — the declared FOREIGN KEY on
`user_id` is never enforced because no `foreign_keys` pragma is ever issued),
journal the INSERT, then push immediately when online. -/
def create_pet (s : DBM) (pet_id log_id now : String)
    (user_id name species breed : String) (age : Int) (weight : Int) (notes : String)
    (remoteOk : Bool) : Option String × DBM :=
  if s.local_db.pets.any (fun p => p.id == pet_id) then (none, s)
  else
    let row : PetRow :=
      ⟨pet_id, user_id, name, species, breed, age, weight, notes, now, now, false, "pending"⟩
    let s1 : DBM := { s with
      local_db := log_change { s.local_db with pets := s.local_db.pets ++ [row] }
        log_id "pets" pet_id "INSERT" now }
    (some pet_id, if s.is_online then (sync_pet_to_remote s1 pet_id remoteOk).2 else s1)

/-- The mutable fields `update_pet` accepts (`allowed_fields`). -/
def allowed_fields : List String := ["name", "species", "breed", "age", "weight", "notes"]

/-- Apply one `SET k = v` item of `update_pet`'s dynamic UPDATE.  SQLite's
dynamic typing is narrowed to the well-typed value for each column. -/
def applyOne (p : PetRow) (kv : String × SqlVal) : PetRow :=
  match kv.1, kv.2 with
  | "name", .s v => { p with name := v }
  | "species", .s v => { p with species := v }
  | "breed", .s v => { p with breed := v }
  | "age", .i v => { p with age := v }
  | "weight", .i v => { p with weight := v }
  | "notes", .s v => { p with notes := v }
  | _, _ => p

/-- The row transformation of `update_pet`'s dynamic UPDATE statement: apply
the filtered field assignments, then `updated_at = now`, `sync_status =
'pending'`. -/
def update_pet_apply (now : String) (updates : List (String × SqlVal)) (p : PetRow) : PetRow :=
  { updates.foldl applyOne p with updated_at := now, sync_status := "pending" }

/-- The local write of `update_pet`: the UPDATE plus the journal append. -/
def update_pet_write (db : DB) (pet_id now log_id : String)
    (updates : List (String × SqlVal)) : DB :=
  log_change { db with pets := setBy (fun q => q.id) pet_id (update_pet_apply now updates) db.pets }
    log_id "pets" pet_id "UPDATE" now

/-- `update_pet`: filter `kwargs` down to `allowed_fields`; if nothing is
left return `False` untouched; otherwise UPDATE the filtered fields plus
`updated_at = now` and `sync_status = 'pending'`, journal the UPDATE, and
push immediately when online. -/
def update_pet (s : DBM) (pet_id now log_id : String) (kwargs : List (String × SqlVal))
    (remoteOk : Bool) : Bool × DBM :=
  let updates := kwargs.filter fun kv => allowed_fields.contains kv.1
  if updates.isEmpty then (false, s)
  else
    let s1 := { s with local_db := update_pet_write s.local_db pet_id now log_id updates }
    (true, if s.is_online then (sync_pet_to_remote s1 pet_id remoteOk).2 else s1)

/-- The row transformation of `delete_pet`'s UPDATE statement. -/
def delete_pet_apply (now : String) (q : PetRow) : PetRow :=
  { q with is_deleted := true, updated_at := now, sync_status := "pending" }

/-- The local write of `delete_pet`: the soft-delete UPDATE plus the journal
append. -/
def delete_pet_write (db : DB) (pet_id now log_id : String) : DB :=
  log_change { db with pets := setBy (fun q => q.id) pet_id (delete_pet_apply now) db.pets }
    log_id "pets" pet_id "DELETE" now

/-- `delete_pet`: soft delete — `is_deleted = 1`, `updated_at = now`,
`sync_status = 'pending'`, journal the DELETE, push immediately when online. -/
def delete_pet (s : DBM) (pet_id now log_id : String) (remoteOk : Bool) : Bool × DBM :=
  let s1 := { s with local_db := delete_pet_write s.local_db pet_id now log_id }
  (true, if s.is_online then (sync_pet_to_remote s1 pet_id remoteOk).2 else s1)

/-- The dict `sync_all_pending` returns: `{"users": _, "pets": _, "status": _}`. -/
structure PushResult where
  users : Nat
  pets : Nat
  status : String
deriving Repr, DecidableEq

/-- The dict `pull_from_remote` returns: `{"pets": _, "status": _}`. -/
structure PullResult where
  pets : Nat
  status : String
deriving Repr, DecidableEq

/-- The dict `full_sync` returns. -/
structure FullSyncResult where
  pushed : PushResult
  pulled : PullResult
  is_online : Bool
deriving Repr, DecidableEq

/-- One iteration of the pending-users loop of `sync_all_pending`. -/
def stepU (userOk : String → Bool) (acc : Nat × DBM) (uid : String) : Nat × DBM :=
  let r := sync_user_to_remote acc.2 uid (userOk uid)
  (if r.1 then acc.1 + 1 else acc.1, r.2)

/-- One iteration of the pending-pets loop of `sync_all_pending`. -/
def stepP (petOk : String → Bool) (acc : Nat × DBM) (pid : String) : Nat × DBM :=
  let r := sync_pet_to_remote acc.2 pid (petOk pid)
  (if r.1 then acc.1 + 1 else acc.1, r.2)

/-- `SELECT id FROM users WHERE sync_status = 'pending'`. -/
def pendingUserIds (db : DB) : List String :=
  (db.users.filter fun u => u.sync_status == "pending").map fun u => u.id

/-- `SELECT id FROM pets WHERE sync_status = 'pending'`. -/
def pendingPetIds (db : DB) : List String :=
  (db.pets.filter fun p => p.sync_status == "pending").map fun p => p.id

/-- `sync_all_pending`: re-check the connection (`check_connection`, whose
outcome is `connOk` and which stores it into `_is_online`); offline returns
zero counts untouched; online snapshots the pending ids of each table and
pushes them one by one, counting successes — a failed push falls through to
the next row. -/
def sync_all_pending (s : DBM) (connOk : Bool) (userOk petOk : String → Bool) :
    PushResult × DBM :=
  if connOk = false then (⟨0, 0, "offline"⟩, { s with is_online := false })
  else
    let s0 := { s with is_online := true }
    let ru := (pendingUserIds s0.local_db).foldl (stepU userOk) (0, s0)
    let rp := (pendingPetIds ru.2.local_db).foldl (stepP petOk) (0, ru.2)
    (⟨ru.1, rp.1, "online"⟩, rp.2)

/-- Lexicographic-by-code-point comparison of two character lists: the order
Python's `<` uses on `str` values, which is how the source compares the TEXT
timestamps (`local_pet[0] < remote_updated`). -/
def strLtb : List Char → List Char → Bool
  | [], [] => false
  | [], _ :: _ => true
  | _ :: _, [] => false
  | a :: as, b :: bs =>
    if a.toNat < b.toNat then true
    else if b.toNat < a.toNat then false
    else strLtb as bs

/-- Strict order on TEXT timestamps, as the source compares them. -/
def tsLt (a b : String) : Bool := strLtb a.data b.data

/-- The branch condition of `pull_from_remote`'s loop:
`if not local_pet or local_pet[0] < remote_updated`. -/
def pullDecision (lp : Option PetRow) (r : PetRow) : Bool :=
  match lp with
  | none => true
  | some q => tsLt q.updated_at r.updated_at

/-- One iteration of `pull_from_remote`'s loop over the remote rows, acting
on (count so far, local pets table). -/
def pullStep (acc : Nat × List PetRow) (pet : PetRow) : Nat × List PetRow :=
  if pullDecision (acc.2.find? fun q => q.id == pet.id) pet then
    (acc.1 + 1, upsertBy (fun q => q.id) acc.2 { pet with sync_status := "synced" })
  else acc

/-- `pull_from_remote`: offline is a no-op; online fetches the remote rows of
the owner and applies last-write-wins row by row (see the module comment for
the positional-binding convention of its INSERT statement). -/
def pull_from_remote (s : DBM) (user_id : String) : PullResult × DBM :=
  if s.is_online = false then (⟨0, "offline"⟩, s)
  else
    let remote_pets := s.remote_db.pets.filter fun p => p.user_id == user_id
    let r := remote_pets.foldl pullStep (0, s.local_db.pets)
    (⟨r.1, "online"⟩, { s with local_db := { s.local_db with pets := r.2 } })

/-- `full_sync`: push everything pending, then pull for the owner, and wrap
the two sub-results with the final `_is_online` flag. -/
def full_sync (s : DBM) (connOk : Bool) (userOk petOk : String → Bool) (user_id : String) :
    FullSyncResult × DBM :=
  let pr := sync_all_pending s connOk userOk petOk
  let pl := pull_from_remote pr.2 user_id
  (⟨pr.1, pl.1, pl.2.is_online⟩, pl.2)

/-- A Python value, for stating the exact dict shapes the sync API returns. -/
inductive PyVal
  | int (n : Nat)
  | str (v : String)
  | bool (b : Bool)
  | dict (entries : List (String × PyVal))

/-- The insertion-ordered dict `sync_all_pending` builds. -/
def PushResult.toDict (r : PushResult) : List (String × PyVal) :=
  [("users", .int r.users), ("pets", .int r.pets), ("status", .str r.status)]

/-- The insertion-ordered dict `pull_from_remote` builds. -/
def PullResult.toDict (r : PullResult) : List (String × PyVal) :=
  [("pets", .int r.pets), ("status", .str r.status)]

/-- The insertion-ordered dict `full_sync` builds. -/
def FullSyncResult.toDict (r : FullSyncResult) : List (String × PyVal) :=
  [("pushed", .dict r.pushed.toDict), ("pulled", .dict r.pulled.toDict),
   ("is_online", .bool r.is_online)]

/-- Python dict key lookup. -/
def lookupKey (d : List (String × PyVal)) (k : String) : Option PyVal :=
  (d.find? fun kv => kv.1 == k).map fun kv => kv.2

/-! Concrete sample rows and states used by the closed example theorems. -/

def sampleUser : UserRow :=
  ⟨"u1", "alice", "hash1", "2024-01-01T00:00:00", "2024-01-01T00:00:00", false, "pending"⟩

def samplePet : PetRow :=
  ⟨"p1", "u1", "Rex", "dog", "lab", 3, 30, "",
   "2024-01-01T00:00:00", "2024-01-01T00:00:00", false, "pending"⟩

def sOffline : DBM := ⟨⟨[sampleUser], [samplePet], []⟩, DB.empty, false⟩

def sOnline : DBM := ⟨⟨[sampleUser], [samplePet], []⟩, DB.empty, true⟩

/-- The remote copy of `p1`, strictly newer than the local copy. -/
def remotePet : PetRow :=
  { samplePet with updated_at := "2024-01-02T00:00:00", name := "Rexy" }

/-- An online state whose remote store holds `remotePet`. -/
def sPull : DBM := ⟨⟨[sampleUser], [samplePet], []⟩, ⟨[], [remotePet], []⟩, true⟩

/-! Generic lemmas about keyed upserts and keyed updates. -/

theorem upsertBy_find_self {α : Type} (key : α → String) (l : List α) (x : α) :
    (upsertBy key l x).find? (fun y => key y == key x) = some x := by
  induction l with
  | nil => simp [upsertBy]
  | cons y rest ih =>
    by_cases h : key y == key x
    · simp [upsertBy, h, List.find?_cons]
    · simp only [upsertBy, h, if_false, Bool.false_eq_true]
      rw [List.find?_cons_of_neg _ (by simpa using h)]
      exact ih

theorem upsertBy_find_other {α : Type} (key : α → String) (l : List α) (x : α) (k : String)
    (h : key x ≠ k) :
    (upsertBy key l x).find? (fun y => key y == k) = l.find? (fun y => key y == k) := by
  induction l with
  | nil => simp [upsertBy, h]
  | cons y rest ih =>
    by_cases hy : key y == key x
    · have hyk : (key y == k) = false := by
        have : key y = key x := by simpa using hy
        simp [this, h]
      simp only [upsertBy, hy, if_true]
      rw [List.find?_cons_of_neg _ (by simp [h]), List.find?_cons_of_neg _ (by simp [hyk])]
    · simp only [upsertBy, hy, if_false, Bool.false_eq_true]
      by_cases hyk : key y == k
      · rw [List.find?_cons_of_pos _ (by simpa using hyk),
          List.find?_cons_of_pos _ (by simpa using hyk)]
      · rw [List.find?_cons_of_neg _ (by simpa using hyk),
          List.find?_cons_of_neg _ (by simpa using hyk)]
        exact ih

theorem setBy_find_self {α : Type} (key : α → String) (k : String) (f : α → α) (l : List α)
    (hf : ∀ y, key (f y) = key y) :
    (setBy key k f l).find? (fun y => key y == k) = (l.find? (fun y => key y == k)).map f := by
  induction l with
  | nil => simp [setBy]
  | cons y rest ih =>
    by_cases h : key y == k
    · simp only [setBy, List.map_cons, h, if_true]
      rw [List.find?_cons_of_pos _ (by simp [hf, (by simpa using h : key y = k)]),
        List.find?_cons_of_pos _ (by simpa using h)]
      simp
    · simp only [setBy, List.map_cons, h, if_false, Bool.false_eq_true]
      rw [List.find?_cons_of_neg _ (by simpa using h), List.find?_cons_of_neg _ (by simpa using h)]
      exact ih

theorem setBy_find_other {α : Type} (key : α → String) (k k' : String) (f : α → α) (l : List α)
    (hf : ∀ y, key (f y) = key y) (h : k ≠ k') :
    (setBy key k f l).find? (fun y => key y == k') = l.find? (fun y => key y == k') := by
  induction l with
  | nil => simp [setBy]
  | cons y rest ih =>
    by_cases hy : key y == k
    · have : key y = k := by simpa using hy
      simp only [setBy, List.map_cons, hy, if_true]
      rw [List.find?_cons_of_neg _ (by simp [hf, this, h]),
        List.find?_cons_of_neg _ (by simp [this, h])]
      exact ih
    · simp only [setBy, List.map_cons, hy, if_false, Bool.false_eq_true]
      by_cases hyk : key y == k'
      · rw [List.find?_cons_of_pos _ (by simpa using hyk),
          List.find?_cons_of_pos _ (by simpa using hyk)]
      · rw [List.find?_cons_of_neg _ (by simpa using hyk),
          List.find?_cons_of_neg _ (by simpa using hyk)]
        exact ih

/-! Facts about the single-record push operations. -/

theorem sync_pet_to_remote_log (s : DBM) (pid : String) (ok : Bool) :
    (sync_pet_to_remote s pid ok).2.local_db.sync_log = s.local_db.sync_log := by
  unfold sync_pet_to_remote
  repeat' split
  all_goals rfl

theorem sync_pet_to_remote_find (s : DBM) (pid : String) (ok : Bool) (p : PetRow)
    (hp : s.local_db.pets.find? (fun q => q.id == pid) = some p) :
    ∃ st, (sync_pet_to_remote s pid ok).2.local_db.pets.find? (fun q => q.id == pid)
      = some { p with sync_status := st }
      ∧ (s.is_online = false → st = p.sync_status) := by
  cases hon : s.is_online with
  | false =>
    refine ⟨p.sync_status, ?_, fun _ => rfl⟩
    simp [sync_pet_to_remote, hon, hp]
  | true =>
    cases hok : ok with
    | false =>
      refine ⟨p.sync_status, ?_, by simp [hon]⟩
      simp [sync_pet_to_remote, hon, hp]
    | true =>
      refine ⟨"synced", ?_, by simp [hon]⟩
      have hpets : (sync_pet_to_remote s pid true).2.local_db.pets
          = setBy (fun q => q.id) pid (fun q => { q with sync_status := "synced" })
              s.local_db.pets := by
        simp [sync_pet_to_remote, hon, hp]
      rw [hpets, setBy_find_self (fun q => q.id) pid
        (fun q => { q with sync_status := "synced" }) s.local_db.pets (fun y => rfl), hp]
      rfl

theorem sync_user_to_remote_is_online (s : DBM) (uid : String) (ok : Bool) :
    (sync_user_to_remote s uid ok).2.is_online = s.is_online := by
  unfold sync_user_to_remote
  repeat' split
  all_goals rfl

theorem sync_user_to_remote_pets (s : DBM) (uid : String) (ok : Bool) :
    (sync_user_to_remote s uid ok).2.local_db.pets = s.local_db.pets := by
  unfold sync_user_to_remote
  repeat' split
  all_goals rfl

theorem sync_user_to_remote_find_isSome (s : DBM) (uid x : String) (ok : Bool) :
    ((sync_user_to_remote s uid ok).2.local_db.users.find? (fun u => u.id == x)).isSome
      = (s.local_db.users.find? (fun u => u.id == x)).isSome := by
  cases hon : s.is_online with
  | false => simp [sync_user_to_remote, hon]
  | true =>
    cases hfind : s.local_db.users.find? (fun u => u.id == uid) with
    | none => simp [sync_user_to_remote, hon, hfind]
    | some u =>
      cases hok : ok with
      | false => simp [sync_user_to_remote, hon, hfind]
      | true =>
        have husers : (sync_user_to_remote s uid true).2.local_db.users
            = setBy (fun v => v.id) uid (fun v => { v with sync_status := "synced" })
                s.local_db.users := by
          simp [sync_user_to_remote, hon, hfind]
        rw [husers]
        by_cases hx : uid = x
        · subst hx
          rw [setBy_find_self (fun v => v.id) uid
            (fun v => { v with sync_status := "synced" }) s.local_db.users (fun y => rfl)]
          simp
        · rw [setBy_find_other (fun v => v.id) uid x
            (fun v => { v with sync_status := "synced" }) s.local_db.users (fun y => rfl) hx]

theorem sync_user_to_remote_result (s : DBM) (uid : String) (ok : Bool)
    (hon : s.is_online = true)
    (hfind : (s.local_db.users.find? (fun u => u.id == uid)).isSome) :
    (sync_user_to_remote s uid ok).1 = ok := by
  cases hf : s.local_db.users.find? (fun u => u.id == uid) with
  | none => rw [hf] at hfind; simp at hfind
  | some u =>
    cases hok : ok with
    | false => simp [sync_user_to_remote, hon, hf]
    | true => simp [sync_user_to_remote, hon, hf]

theorem sync_pet_to_remote_is_online (s : DBM) (pid : String) (ok : Bool) :
    (sync_pet_to_remote s pid ok).2.is_online = s.is_online := by
  unfold sync_pet_to_remote
  repeat' split
  all_goals rfl

theorem sync_pet_to_remote_find_isSome (s : DBM) (pid x : String) (ok : Bool) :
    ((sync_pet_to_remote s pid ok).2.local_db.pets.find? (fun q => q.id == x)).isSome
      = (s.local_db.pets.find? (fun q => q.id == x)).isSome := by
  cases hon : s.is_online with
  | false => simp [sync_pet_to_remote, hon]
  | true =>
    cases hfind : s.local_db.pets.find? (fun q => q.id == pid) with
    | none => simp [sync_pet_to_remote, hon, hfind]
    | some p =>
      cases hok : ok with
      | false => simp [sync_pet_to_remote, hon, hfind]
      | true =>
        have hpets : (sync_pet_to_remote s pid true).2.local_db.pets
            = setBy (fun q => q.id) pid (fun q => { q with sync_status := "synced" })
                s.local_db.pets := by
          simp [sync_pet_to_remote, hon, hfind]
        rw [hpets]
        by_cases hx : pid = x
        · subst hx
          rw [setBy_find_self (fun q => q.id) pid
            (fun q => { q with sync_status := "synced" }) s.local_db.pets (fun y => rfl)]
          simp
        · rw [setBy_find_other (fun q => q.id) pid x
            (fun q => { q with sync_status := "synced" }) s.local_db.pets (fun y => rfl) hx]

theorem sync_pet_to_remote_result (s : DBM) (pid : String) (ok : Bool)
    (hon : s.is_online = true)
    (hfind : (s.local_db.pets.find? (fun q => q.id == pid)).isSome) :
    (sync_pet_to_remote s pid ok).1 = ok := by
  cases hf : s.local_db.pets.find? (fun q => q.id == pid) with
  | none => rw [hf] at hfind; simp at hfind
  | some p =>
    cases hok : ok with
    | false => simp [sync_pet_to_remote, hon, hf]
    | true => simp [sync_pet_to_remote, hon, hf]

/-! The two batch loops of `sync_all_pending`. -/

theorem users_loop_spec (userOk : String → Bool) (ids : List String) :
    ∀ (n : Nat) (s : DBM), s.is_online = true →
      (∀ uid ∈ ids, (s.local_db.users.find? (fun u => u.id == uid)).isSome) →
      (ids.foldl (stepU userOk) (n, s)).1 = n + ids.countP userOk
      ∧ (ids.foldl (stepU userOk) (n, s)).2.is_online = true
      ∧ (ids.foldl (stepU userOk) (n, s)).2.local_db.pets = s.local_db.pets := by
  induction ids with
  | nil => intro n s hon _; exact ⟨by simp, hon, rfl⟩
  | cons uid rest ih =>
    intro n s hon hfind
    have hres : (sync_user_to_remote s uid (userOk uid)).1 = userOk uid :=
      sync_user_to_remote_result s uid (userOk uid) hon (hfind uid (List.mem_cons_self uid rest))
    have hstep : stepU userOk (n, s) uid
        = ((if userOk uid then n + 1 else n), (sync_user_to_remote s uid (userOk uid)).2) := by
      simp [stepU, hres]
    have hon' : ((sync_user_to_remote s uid (userOk uid)).2).is_online = true := by
      rw [sync_user_to_remote_is_online]; exact hon
    have hfind' : ∀ v ∈ rest,
        (((sync_user_to_remote s uid (userOk uid)).2).local_db.users.find?
          (fun u => u.id == v)).isSome := by
      intro v hv
      rw [sync_user_to_remote_find_isSome]
      exact hfind v (List.mem_cons_of_mem _ hv)
    obtain ⟨h1, h2, h3⟩ := ih (if userOk uid then n + 1 else n)
      (sync_user_to_remote s uid (userOk uid)).2 hon' hfind'
    refine ⟨?_, ?_, ?_⟩
    · rw [List.foldl_cons, hstep, h1, List.countP_cons]
      by_cases h : userOk uid <;> simp [h] <;> omega
    · rw [List.foldl_cons, hstep]; exact h2
    · rw [List.foldl_cons, hstep, h3, sync_user_to_remote_pets]

theorem pets_loop_spec (petOk : String → Bool) (ids : List String) :
    ∀ (n : Nat) (s : DBM), s.is_online = true →
      (∀ pid ∈ ids, (s.local_db.pets.find? (fun q => q.id == pid)).isSome) →
      (ids.foldl (stepP petOk) (n, s)).1 = n + ids.countP petOk := by
  induction ids with
  | nil => intro n s _ _; simp
  | cons pid rest ih =>
    intro n s hon hfind
    have hres : (sync_pet_to_remote s pid (petOk pid)).1 = petOk pid :=
      sync_pet_to_remote_result s pid (petOk pid) hon (hfind pid (List.mem_cons_self pid rest))
    have hstep : stepP petOk (n, s) pid
        = ((if petOk pid then n + 1 else n), (sync_pet_to_remote s pid (petOk pid)).2) := by
      simp [stepP, hres]
    have hon' : ((sync_pet_to_remote s pid (petOk pid)).2).is_online = true := by
      rw [sync_pet_to_remote_is_online]; exact hon
    have hfind' : ∀ v ∈ rest,
        (((sync_pet_to_remote s pid (petOk pid)).2).local_db.pets.find?
          (fun q => q.id == v)).isSome := by
      intro v hv
      rw [sync_pet_to_remote_find_isSome]
      exact hfind v (List.mem_cons_of_mem _ hv)
    have h1 := ih (if petOk pid then n + 1 else n)
      (sync_pet_to_remote s pid (petOk pid)).2 hon' hfind'
    rw [List.foldl_cons, hstep, h1, List.countP_cons]
    by_cases h : petOk pid <;> simp [h] <;> omega

theorem find_isSome_of_mem {α : Type} (l : List α) (p : α → Bool) (x : α)
    (hx : x ∈ l) (hp : p x = true) : (l.find? p).isSome := by
  induction l with
  | nil => cases hx
  | cons y rest ih =>
    rcases List.mem_cons.mp hx with h | h
    · subst h
      simp [List.find?_cons_of_pos _ hp]
    · by_cases hy : p y
      · simp [List.find?_cons_of_pos _ hy]
      · rw [List.find?_cons_of_neg _ (by simpa using hy)]
        exact ih h

theorem sync_all_pending_online_eq (s : DBM) (userOk petOk : String → Bool) :
    sync_all_pending s true userOk petOk
      = (⟨((pendingUserIds s.local_db).foldl (stepU userOk)
            (0, { s with is_online := true })).1,
          ((pendingPetIds (((pendingUserIds s.local_db).foldl (stepU userOk)
              (0, { s with is_online := true })).2).local_db).foldl (stepP petOk)
            (0, ((pendingUserIds s.local_db).foldl (stepU userOk)
              (0, { s with is_online := true })).2)).1,
          "online"⟩,
         ((pendingPetIds (((pendingUserIds s.local_db).foldl (stepU userOk)
              (0, { s with is_online := true })).2).local_db).foldl (stepP petOk)
            (0, ((pendingUserIds s.local_db).foldl (stepU userOk)
              (0, { s with is_online := true })).2)).2) := rfl

/-- C5: `sync_all_pending` (online) enumerates every row whose `sync_status`
is 'pending' in each of the two tables, attempts the single-record push for
each, and returns per table the number of rows whose push succeeded: the
count is the number of pending rows whose remote write succeeds, over the
whole pending set — a row whose push fails does not stop the loop, so a
partial-success count results. -/
theorem sync_all_pending_counts_per_table (s : DBM) (userOk petOk : String → Bool) :
    (sync_all_pending s true userOk petOk).1
      = ⟨(s.local_db.users.filter fun u => u.sync_status == "pending").countP
            (fun u => userOk u.id),
         (s.local_db.pets.filter fun p => p.sync_status == "pending").countP
            (fun p => petOk p.id),
         "online"⟩ := by
  have hufind : ∀ uid ∈ pendingUserIds s.local_db,
      (({ s with is_online := true } : DBM).local_db.users.find?
        (fun u => u.id == uid)).isSome := by
    intro uid hm
    obtain ⟨u, hu, rfl⟩ := List.mem_map.mp hm
    exact find_isSome_of_mem _ _ u (List.mem_filter.mp hu).1 (by simp)
  obtain ⟨h1, h2, h3⟩ := users_loop_spec userOk (pendingUserIds s.local_db) 0
    ({ s with is_online := true }) rfl hufind
  have hpends : pendingPetIds (((pendingUserIds s.local_db).foldl (stepU userOk)
      (0, { s with is_online := true })).2).local_db = pendingPetIds s.local_db := by
    unfold pendingPetIds
    rw [h3]
  have hpfind : ∀ pid ∈ pendingPetIds s.local_db,
      ((((pendingUserIds s.local_db).foldl (stepU userOk)
        (0, { s with is_online := true })).2).local_db.pets.find?
          (fun q => q.id == pid)).isSome := by
    intro pid hm
    rw [h3]
    obtain ⟨p, hp, rfl⟩ := List.mem_map.mp hm
    exact find_isSome_of_mem _ _ p (List.mem_filter.mp hp).1 (by simp)
  have h4 := pets_loop_spec petOk (pendingPetIds s.local_db) 0
    ((pendingUserIds s.local_db).foldl (stepU userOk) (0, { s with is_online := true })).2
    h2 hpfind
  rw [sync_all_pending_online_eq, hpends]
  refine congrArg₂ (fun a b => PushResult.mk a b "online") ?_ ?_
  · rw [h1]
    unfold pendingUserIds
    rw [List.countP_map, Nat.zero_add]
    rfl
  · rw [h4]
    unfold pendingPetIds
    rw [List.countP_map, Nat.zero_add]
    rfl

/-- C4: with the Remote Connector reporting unavailable, push
(`sync_all_pending` whose connection re-check failed) and pull
(`pull_from_remote` with `_is_online` false) are no-ops: both return zero
counts with an offline status and the state — in particular every local
record's `sync_status` — is unchanged. -/
theorem offline_sync_is_noop (s : DBM) (userOk petOk : String → Bool) (uid : String)
    (hoff : s.is_online = false) :
    sync_all_pending s false userOk petOk = (⟨0, 0, "offline"⟩, s)
    ∧ pull_from_remote s uid = (⟨0, "offline"⟩, s) := by
  have hs : ({ s with is_online := false } : DBM) = s := by
    cases s with
    | mk l r o =>
      simp only at hoff
      rw [hoff]
  constructor
  · simp [sync_all_pending, hs]
  · simp [pull_from_remote, hoff]

/-- Closed instance of `offline_sync_is_noop` at a concrete offline state. -/
theorem offline_sync_is_noop_witness :
    sync_all_pending sOffline false (fun _ => true) (fun _ => true)
      = (⟨0, 0, "offline"⟩, sOffline)
    ∧ pull_from_remote sOffline "u1" = (⟨0, "offline"⟩, sOffline) :=
  offline_sync_is_noop sOffline (fun _ => true) (fun _ => true) "u1" rfl

/-- C2: pushing one record while the connector is available and the local
row exists writes the local row's contents to the remote store with the
remote `sync_status` field forced to 'synced' regardless of the local
`sync_status` value (the row `p`, resp. `u`, is arbitrary, including its
status); on remote-write success the local row's status becomes 'synced';
on remote-write failure the call returns `False` and the state — hence a
local 'pending' status — is unchanged.  Both embedded operations are total
functions, so no exception propagates to the caller. -/
theorem push_single_record_spec (s : DBM) (pid uid : String) (p : PetRow) (u : UserRow)
    (hon : s.is_online = true)
    (hp : s.local_db.pets.find? (fun q => q.id == pid) = some p)
    (hu : s.local_db.users.find? (fun v => v.id == uid) = some u) :
    (sync_pet_to_remote s pid true).1 = true
    ∧ ((sync_pet_to_remote s pid true).2.remote_db.pets.find? (fun q => q.id == pid)
        = some { p with sync_status := "synced" })
    ∧ ((sync_pet_to_remote s pid true).2.local_db.pets.find? (fun q => q.id == pid)
        = some { p with sync_status := "synced" })
    ∧ sync_pet_to_remote s pid false = (false, s)
    ∧ (sync_user_to_remote s uid true).1 = true
    ∧ ((sync_user_to_remote s uid true).2.remote_db.users.find? (fun v => v.id == uid)
        = some { u with sync_status := "synced" })
    ∧ ((sync_user_to_remote s uid true).2.local_db.users.find? (fun v => v.id == uid)
        = some { u with sync_status := "synced" })
    ∧ sync_user_to_remote s uid false = (false, s) := by
  have hpid : p.id = pid := by simpa using List.find?_some hp
  have huid : u.id = uid := by simpa using List.find?_some hu
  subst hpid
  subst huid
  refine ⟨by simp [sync_pet_to_remote, hon, hp], ?_, ?_,
          by simp [sync_pet_to_remote, hon, hp],
          by simp [sync_user_to_remote, hon, hu], ?_, ?_,
          by simp [sync_user_to_remote, hon, hu]⟩
  · have hrp : (sync_pet_to_remote s p.id true).2.remote_db.pets
        = upsertBy (fun q => q.id) s.remote_db.pets { p with sync_status := "synced" } := by
      simp [sync_pet_to_remote, hon, hp]
    rw [hrp]
    exact upsertBy_find_self (fun q => q.id) s.remote_db.pets { p with sync_status := "synced" }
  · have hlp : (sync_pet_to_remote s p.id true).2.local_db.pets
        = setBy (fun q => q.id) p.id (fun q => { q with sync_status := "synced" })
            s.local_db.pets := by
      simp [sync_pet_to_remote, hon, hp]
    rw [hlp, setBy_find_self (fun q => q.id) p.id
      (fun q => { q with sync_status := "synced" }) s.local_db.pets (fun y => rfl), hp]
    rfl
  · have hru : (sync_user_to_remote s u.id true).2.remote_db.users
        = upsertBy (fun v => v.id) s.remote_db.users { u with sync_status := "synced" } := by
      simp [sync_user_to_remote, hon, hu]
    rw [hru]
    exact upsertBy_find_self (fun v => v.id) s.remote_db.users { u with sync_status := "synced" }
  · have hlu : (sync_user_to_remote s u.id true).2.local_db.users
        = setBy (fun v => v.id) u.id (fun v => { v with sync_status := "synced" })
            s.local_db.users := by
      simp [sync_user_to_remote, hon, hu]
    rw [hlu, setBy_find_self (fun v => v.id) u.id
      (fun v => { v with sync_status := "synced" }) s.local_db.users (fun y => rfl), hu]
    rfl

/-- Closed instance of `push_single_record_spec` at a concrete online state
whose pet and user rows are both 'pending'. -/
theorem push_single_record_spec_witness :
    (sync_pet_to_remote sOnline "p1" true).1 = true
    ∧ ((sync_pet_to_remote sOnline "p1" true).2.local_db.pets.find? (fun q => q.id == "p1")
        = some { samplePet with sync_status := "synced" })
    ∧ sync_pet_to_remote sOnline "p1" false = (false, sOnline)
    ∧ sync_user_to_remote sOnline "u1" false = (false, sOnline) := by
  have h := push_single_record_spec sOnline "p1" "u1" samplePet sampleUser rfl
    (by decide) (by decide)
  exact ⟨h.1, h.2.2.1, h.2.2.2.1, h.2.2.2.2.2.2.2⟩

/-- C3 (amended): `full_sync` always runs the push of all pending rows over
both synchronizable tables first and the pull for the owner second — the
final state is `pull_from_remote` applied to `sync_all_pending`'s output
state — and returns `{pushed, pulled, is_online}` where the pushed mapping
carries a count for each synchronizable table (`users` and `pets`) but the
pulled mapping carries a count only for `pets`: the pull path covers no
other table, so the pulled mapping has no `users` entry. -/
theorem full_sync_structure (s : DBM) (connOk : Bool) (userOk petOk : String → Bool)
    (uid : String) :
    full_sync s connOk userOk petOk uid
      = (⟨(sync_all_pending s connOk userOk petOk).1,
          (pull_from_remote (sync_all_pending s connOk userOk petOk).2 uid).1,
          (pull_from_remote (sync_all_pending s connOk userOk petOk).2 uid).2.is_online⟩,
         (pull_from_remote (sync_all_pending s connOk userOk petOk).2 uid).2)
    ∧ lookupKey (full_sync s connOk userOk petOk uid).1.pushed.toDict "users"
        = some (.int (sync_all_pending s connOk userOk petOk).1.users)
    ∧ lookupKey (full_sync s connOk userOk petOk uid).1.pushed.toDict "pets"
        = some (.int (sync_all_pending s connOk userOk petOk).1.pets)
    ∧ lookupKey (full_sync s connOk userOk petOk uid).1.pulled.toDict "pets"
        = some (.int (pull_from_remote (sync_all_pending s connOk userOk petOk).2 uid).1.pets)
    ∧ lookupKey (full_sync s connOk userOk petOk uid).1.pulled.toDict "users" = none := by
  exact ⟨rfl, rfl, rfl, rfl, rfl⟩

/-- C3 is false as stated: at a concrete online state the `pushed` mapping of
`full_sync` has a count for the synchronizable table `users` (one user row
was pushed), yet the `pulled` mapping contains no entry for `users` at all —
so the pulled counts do not map every synchronizable table. -/
theorem full_sync_pulled_users_missing :
    lookupKey ((full_sync sOnline true (fun _ => true) (fun _ => true) "u1").1.pulled.toDict)
      "users" = none
    ∧ lookupKey ((full_sync sOnline true (fun _ => true) (fun _ => true) "u1").1.pushed.toDict)
      "users" = some (.int 1) := by
  exact ⟨rfl, rfl⟩

/-! The per-row behaviour of `pull_from_remote`'s loop. -/

theorem pullStep_find_self (acc : Nat × List PetRow) (r : PetRow) :
    (pullStep acc r).2.find? (fun q => q.id == r.id)
      = (if pullDecision (acc.2.find? fun q => q.id == r.id) r
         then some { r with sync_status := "synced" }
         else acc.2.find? (fun q => q.id == r.id)) := by
  unfold pullStep
  by_cases h : pullDecision (acc.2.find? fun q => q.id == r.id) r
  · simp only [h, if_true]
    exact upsertBy_find_self (fun q => q.id) acc.2 { r with sync_status := "synced" }
  · simp [h]

theorem pullStep_find_other (acc : Nat × List PetRow) (r : PetRow) (x : String)
    (h : r.id ≠ x) :
    (pullStep acc r).2.find? (fun q => q.id == x) = acc.2.find? (fun q => q.id == x) := by
  unfold pullStep
  by_cases hd : pullDecision (acc.2.find? fun q => q.id == r.id) r
  · simp only [hd, if_true]
    exact upsertBy_find_other (fun q => q.id) acc.2 { r with sync_status := "synced" } x h
  · simp [hd]

theorem pull_fold_frame (L : List PetRow) (x : String) :
    ∀ acc : Nat × List PetRow, x ∉ L.map (fun p => p.id) →
      ((L.foldl pullStep acc).2.find? fun q => q.id == x)
        = acc.2.find? (fun q => q.id == x) := by
  induction L with
  | nil => intro acc _; rfl
  | cons r rest ih =>
    intro acc hx
    have hne : r.id ≠ x := by
      intro he
      apply hx
      rw [List.map_cons, he]
      exact List.mem_cons_self x _
    have hx2 : x ∉ rest.map (fun p => p.id) := by
      intro hm
      apply hx
      rw [List.map_cons]
      exact List.mem_cons_of_mem _ hm
    rw [List.foldl_cons, ih (pullStep acc r) hx2, pullStep_find_other acc r x hne]

theorem pull_fold_lww (L : List PetRow) (r : PetRow) :
    ∀ acc : Nat × List PetRow, r ∈ L → (L.map (fun p => p.id)).Nodup →
      ((L.foldl pullStep acc).2.find? fun q => q.id == r.id)
        = (if pullDecision (acc.2.find? fun q => q.id == r.id) r
           then some { r with sync_status := "synced" }
           else acc.2.find? (fun q => q.id == r.id)) := by
  induction L with
  | nil => intro acc h _; cases h
  | cons a rest ih =>
    intro acc hmem hnd
    rw [List.map_cons, List.nodup_cons] at hnd
    rcases List.mem_cons.mp hmem with he | hm
    · subst he
      rw [List.foldl_cons, pull_fold_frame rest r.id (pullStep acc r) hnd.1, pullStep_find_self]
    · have hne : a.id ≠ r.id := by
        intro he
        exact hnd.1 (he ▸ List.mem_map.mpr ⟨r, hm, rfl⟩)
      rw [List.foldl_cons, ih (pullStep acc a) hm hnd.2, pullStep_find_other acc a r.id hne]

theorem pullDecision_iff (lp : Option PetRow) (r : PetRow) :
    pullDecision lp r = true
      ↔ (lp = none ∨ ∃ q, lp = some q ∧ tsLt q.updated_at r.updated_at = true) := by
  cases lp with
  | none => simp [pullDecision]
  | some q => simp [pullDecision]

/-- C1: for every remote row `r` of the owner processed by
`pull_from_remote` (connector available, remote primary keys unique), the
resulting local row keyed by `r.id` is the remote row's full contents with
`sync_status` set to 'synced' exactly when no local row with that id existed
or the local `updated_at` was strictly below the remote one, and is the
original local row, completely unchanged, otherwise — in particular equal
timestamps keep the local copy.  The second conjunct spells the branch
condition out. -/
theorem pull_last_write_wins (s : DBM) (uid : String) (r : PetRow)
    (hon : s.is_online = true)
    (hmem : r ∈ s.remote_db.pets) (huid : r.user_id = uid)
    (hnd : (s.remote_db.pets.map fun p => p.id).Nodup) :
    ((pull_from_remote s uid).2.local_db.pets.find? fun q => q.id == r.id)
      = (if pullDecision (s.local_db.pets.find? fun q => q.id == r.id) r
         then some { r with sync_status := "synced" }
         else s.local_db.pets.find? (fun q => q.id == r.id))
    ∧ (pullDecision (s.local_db.pets.find? fun q => q.id == r.id) r = true
        ↔ (s.local_db.pets.find? (fun q => q.id == r.id) = none
           ∨ ∃ q, s.local_db.pets.find? (fun q2 => q2.id == r.id) = some q
               ∧ tsLt q.updated_at r.updated_at = true)) := by
  constructor
  · have hpets : (pull_from_remote s uid).2.local_db.pets
        = ((s.remote_db.pets.filter fun p => p.user_id == uid).foldl pullStep
            (0, s.local_db.pets)).2 := by
      simp [pull_from_remote, hon]
    have hmem2 : r ∈ s.remote_db.pets.filter fun p => p.user_id == uid :=
      List.mem_filter.mpr ⟨hmem, by simp [huid]⟩
    have hnd2 : ((s.remote_db.pets.filter fun p => p.user_id == uid).map
        fun p => p.id).Nodup :=
      hnd.sublist (List.Sublist.map _ (List.filter_sublist _))
    rw [hpets]
    exact pull_fold_lww (s.remote_db.pets.filter fun p => p.user_id == uid) r
      (0, s.local_db.pets) hmem2 hnd2
  · exact pullDecision_iff _ r

/-- Closed instance of `pull_last_write_wins`: the remote copy of `p1` is
strictly newer than the local copy, so the pull overwrites the local row
with the remote contents marked 'synced'. -/
theorem pull_last_write_wins_witness :
    ((pull_from_remote sPull "u1").2.local_db.pets.find? fun q => q.id == remotePet.id)
      = some { remotePet with sync_status := "synced" } := by
  have h := (pull_last_write_wins sPull "u1" remotePet rfl (by decide) rfl (by decide)).1
  rw [h]
  rfl

/-! Order facts about the timestamp comparison. -/

theorem strLtb_cons_iff (x y : Char) (as bs : List Char) :
    strLtb (x :: as) (y :: bs) = true
      ↔ (x.toNat < y.toNat ∨ (x.toNat = y.toNat ∧ strLtb as bs = true)) := by
  simp only [strLtb]
  by_cases h1 : x.toNat < y.toNat
  · simp [h1]
  · by_cases h2 : y.toNat < x.toNat
    · rw [if_neg h1, if_pos h2]
      simp only [Bool.false_eq_true, false_iff]
      rintro (h | ⟨h, _⟩)
      · exact h1 h
      · omega
    · have he : x.toNat = y.toNat := by omega
      simp [h1, h2, he]

theorem strLtb_trans (a : List Char) : ∀ b c, strLtb a b = true → strLtb b c = true →
    strLtb a c = true := by
  induction a with
  | nil =>
    intro b c hab hbc
    cases b with
    | nil => exact absurd hab (by simp [strLtb])
    | cons y bs =>
      cases c with
      | nil => exact absurd hbc (by simp [strLtb])
      | cons z cs => simp [strLtb]
  | cons x as ih =>
    intro b c hab hbc
    cases b with
    | nil => exact absurd hab (by simp [strLtb])
    | cons y bs =>
      cases c with
      | nil => exact absurd hbc (by simp [strLtb])
      | cons z cs =>
        rw [strLtb_cons_iff] at hab hbc ⊢
        rcases hab with h | ⟨he, hr⟩
        · rcases hbc with h2 | ⟨he2, _⟩
          · exact Or.inl (by omega)
          · exact Or.inl (by omega)
        · rcases hbc with h2 | ⟨he2, hr2⟩
          · exact Or.inl (by omega)
          · exact Or.inr ⟨by omega, ih bs cs hr hr2⟩

theorem tsLt_trans (a b c : String) (hab : tsLt a b = true) (hbc : tsLt b c = true) :
    tsLt a c = true :=
  strLtb_trans a.data b.data c.data hab hbc

/-! `update_pet`'s dynamic field assignments never touch the key columns or
the timestamps of record creation. -/

theorem applyOne_id (p : PetRow) (kv : String × SqlVal) : (applyOne p kv).id = p.id := by
  unfold applyOne
  repeat' split
  all_goals rfl

theorem applyOne_created_at (p : PetRow) (kv : String × SqlVal) :
    (applyOne p kv).created_at = p.created_at := by
  unfold applyOne
  repeat' split
  all_goals rfl

theorem foldl_applyOne_id (l : List (String × SqlVal)) :
    ∀ p : PetRow, (l.foldl applyOne p).id = p.id := by
  induction l with
  | nil => intro p; rfl
  | cons kv rest ih => intro p; rw [List.foldl_cons, ih, applyOne_id]

theorem foldl_applyOne_created_at (l : List (String × SqlVal)) :
    ∀ p : PetRow, (l.foldl applyOne p).created_at = p.created_at := by
  induction l with
  | nil => intro p; rfl
  | cons kv rest ih => intro p; rw [List.foldl_cons, ih, applyOne_created_at]

theorem update_pet_apply_id (now : String) (updates : List (String × SqlVal)) (p : PetRow) :
    (update_pet_apply now updates p).id = p.id := by
  unfold update_pet_apply
  rw [show (updates.foldl applyOne p).id = p.id from foldl_applyOne_id updates p]

/-- C6 (amended): a local mutation of a pet row (`update_pet` with at least
one recognized field, or soft-delete via `delete_pet`) stamps the row's
`updated_at` with the clock reading `now` and leaves `created_at` unchanged;
hence, provided the clock reading strictly exceeds the row's current
`updated_at` — which the code does not itself enforce — the mutation strictly
advances `updated_at`, and the invariant `updated_at >= created_at` is
preserved.  The mutation writes `sync_status = 'pending'`; when the manager
is offline the row is left 'pending' (online, the opportunistic immediate
push may at once mark it 'synced'). -/
theorem mutations_advance_updated_at (s : DBM) (pid now log_id : String)
    (kwargs : List (String × SqlVal)) (ok : Bool) (p : PetRow)
    (hfind : s.local_db.pets.find? (fun q => q.id == pid) = some p)
    (hadv : tsLt p.updated_at now = true)
    (hinv : tsLt p.updated_at p.created_at = false)
    (hk : (kwargs.filter fun kv => allowed_fields.contains kv.1).isEmpty = false) :
    (∃ q, (update_pet s pid now log_id kwargs ok).2.local_db.pets.find?
          (fun q2 => q2.id == pid) = some q
       ∧ q.updated_at = now ∧ q.created_at = p.created_at
       ∧ tsLt p.updated_at q.updated_at = true
       ∧ tsLt q.updated_at q.created_at = false
       ∧ (s.is_online = false → q.sync_status = "pending"))
    ∧ (∃ q, (delete_pet s pid now log_id ok).2.local_db.pets.find?
          (fun q2 => q2.id == pid) = some q
       ∧ q.updated_at = now ∧ q.created_at = p.created_at
       ∧ tsLt p.updated_at q.updated_at = true
       ∧ tsLt q.updated_at q.created_at = false
       ∧ (s.is_online = false → q.sync_status = "pending")) := by
  have hnowinv : tsLt now p.created_at = false := by
    cases hcase : tsLt now p.created_at with
    | false => rfl
    | true =>
      exact absurd (tsLt_trans p.updated_at now p.created_at hadv hcase) (by simp [hinv])
  set u := kwargs.filter fun kv => allowed_fields.contains kv.1 with hu
  have hfind1 : (update_pet_write s.local_db pid now log_id u).pets.find?
      (fun q2 => q2.id == pid) = some (update_pet_apply now u p) := by
    show (setBy (fun q => q.id) pid (update_pet_apply now u) s.local_db.pets).find?
      (fun q2 => q2.id == pid) = some (update_pet_apply now u p)
    rw [setBy_find_self (fun q => q.id) pid (update_pet_apply now u) s.local_db.pets
      (fun y => update_pet_apply_id now u y), hfind]
    rfl
  have hfindD : (delete_pet_write s.local_db pid now log_id).pets.find?
      (fun q2 => q2.id == pid) = some (delete_pet_apply now p) := by
    show (setBy (fun q => q.id) pid (delete_pet_apply now) s.local_db.pets).find?
      (fun q2 => q2.id == pid) = some (delete_pet_apply now p)
    rw [setBy_find_self (fun q => q.id) pid (delete_pet_apply now) s.local_db.pets
      (fun y => (rfl : (delete_pet_apply now y).id = y.id)), hfind]
    rfl
  have hcreated : (update_pet_apply now u p).created_at = p.created_at :=
    foldl_applyOne_created_at u p
  constructor
  · have hs1 : (update_pet s pid now log_id kwargs ok).2
        = (if s.is_online
            then (sync_pet_to_remote
              { s with local_db := update_pet_write s.local_db pid now log_id u } pid ok).2
            else { s with local_db := update_pet_write s.local_db pid now log_id u }) := by
      simp only [update_pet, ← hu]
      rw [if_neg (by simp [hk])]
    cases hon : s.is_online with
    | false =>
      refine ⟨update_pet_apply now u p, ?_, rfl, hcreated, hadv, ?_, fun _ => rfl⟩
      · rw [hs1, hon, if_neg (by simp)]
        exact hfind1
      · show tsLt now (update_pet_apply now u p).created_at = false
        rw [hcreated]
        exact hnowinv
    | true =>
      obtain ⟨st, hst, _⟩ := sync_pet_to_remote_find
        { s with local_db := update_pet_write s.local_db pid now log_id u } pid ok
        (update_pet_apply now u p) hfind1
      refine ⟨{ update_pet_apply now u p with sync_status := st }, ?_, rfl, hcreated, hadv,
        ?_, fun h => absurd h (by simp [hon])⟩
      · rw [hs1, hon, if_pos rfl]
        rw [hon] at hst
        exact hst
      · show tsLt now (update_pet_apply now u p).created_at = false
        rw [hcreated]
        exact hnowinv
  · have hs1 : (delete_pet s pid now log_id ok).2
        = (if s.is_online
            then (sync_pet_to_remote
              { s with local_db := delete_pet_write s.local_db pid now log_id } pid ok).2
            else { s with local_db := delete_pet_write s.local_db pid now log_id }) := by
      rfl
    cases hon : s.is_online with
    | false =>
      refine ⟨delete_pet_apply now p, ?_, rfl, rfl, hadv, hnowinv, fun _ => rfl⟩
      rw [hs1, hon, if_neg (by simp)]
      exact hfindD
    | true =>
      obtain ⟨st, hst, _⟩ := sync_pet_to_remote_find
        { s with local_db := delete_pet_write s.local_db pid now log_id } pid ok
        (delete_pet_apply now p) hfindD
      refine ⟨{ delete_pet_apply now p with sync_status := st }, ?_, rfl, rfl, hadv,
        hnowinv, fun h => absurd h (by simp [hon])⟩
      rw [hs1, hon, if_pos rfl]
      rw [hon] at hst
      exact hst

/-- Closed instance of `mutations_advance_updated_at`: an offline update at a
strictly later clock reading advances `updated_at` and leaves the row
'pending'. -/
theorem mutations_advance_updated_at_witness :
    ∃ q, (update_pet sOffline "p1" "2024-01-03T00:00:00" "lg1" [("name", SqlVal.s "Buddy")]
        false).2.local_db.pets.find? (fun q2 => q2.id == "p1") = some q
      ∧ q.updated_at = "2024-01-03T00:00:00"
      ∧ tsLt samplePet.updated_at q.updated_at = true
      ∧ q.sync_status = "pending" := by
  obtain ⟨⟨q, h1, h2, _, h4, _, h6⟩, _⟩ := mutations_advance_updated_at sOffline "p1"
    "2024-01-03T00:00:00" "lg1" [("name", SqlVal.s "Buddy")] false samplePet
    (by decide) (by decide) (by decide) (by decide)
  exact ⟨q, h1, h2, h4, h6 rfl⟩

/-- C6 is false as stated: a soft-delete whose clock reading equals the
row's current `updated_at` is a local mutation that does not strictly
advance `updated_at` — the row (here `p1`, mutated at the very timestamp it
already carries) ends with `updated_at` unchanged. -/
theorem mutation_equal_timestamp_counterexample :
    sOffline.local_db.pets.find? (fun q => q.id == "p1") = some samplePet
    ∧ samplePet.updated_at = "2024-01-01T00:00:00"
    ∧ ((delete_pet sOffline "p1" "2024-01-01T00:00:00" "lg2" false).2.local_db.pets.find?
        (fun q => q.id == "p1")).map (fun q => q.updated_at)
      = some "2024-01-01T00:00:00"
    ∧ tsLt samplePet.updated_at "2024-01-01T00:00:00" = false := ⟨rfl, rfl, rfl, rfl⟩

/-- C7: each status-changing local mutation — `create_pet` (fresh id),
`update_pet` (with at least one recognized field) and the soft-delete
`delete_pet` — reports success and appends exactly one `sync_log` entry,
carrying `synced = 0`, for its row write; the append happens in the same
operation as the row write and is never skipped after it (the push step that
may follow never touches the journal). -/
theorem mutation_journal_entry (s : DBM)
    (pid now log_id user_id nm species breed nts : String)
    (age weight : Int) (kwargs : List (String × SqlVal)) (ok : Bool)
    (hfresh : s.local_db.pets.any (fun q => q.id == pid) = false)
    (hk : (kwargs.filter fun kv => allowed_fields.contains kv.1).isEmpty = false) :
    ((create_pet s pid log_id now user_id nm species breed age weight nts ok).1 = some pid
      ∧ (create_pet s pid log_id now user_id nm species breed age weight nts
          ok).2.local_db.sync_log
        = s.local_db.sync_log ++ [⟨log_id, "pets", pid, "INSERT", now, false⟩])
    ∧ ((update_pet s pid now log_id kwargs ok).1 = true
      ∧ (update_pet s pid now log_id kwargs ok).2.local_db.sync_log
        = s.local_db.sync_log ++ [⟨log_id, "pets", pid, "UPDATE", now, false⟩])
    ∧ ((delete_pet s pid now log_id ok).1 = true
      ∧ (delete_pet s pid now log_id ok).2.local_db.sync_log
        = s.local_db.sync_log ++ [⟨log_id, "pets", pid, "DELETE", now, false⟩]) := by
  refine ⟨⟨?_, ?_⟩, ⟨?_, ?_⟩, rfl, ?_⟩
  · simp only [create_pet]
    rw [if_neg (by simp [hfresh])]
  · simp only [create_pet]
    rw [if_neg (by simp [hfresh])]
    cases hon : s.is_online with
    | false => rfl
    | true =>
      rw [if_pos rfl]
      simp only [sync_pet_to_remote_log]
      rfl
  · simp only [update_pet]
    rw [if_neg (by simp only [hk]; exact Bool.false_ne_true)]
  · simp only [update_pet]
    rw [if_neg (by simp only [hk]; exact Bool.false_ne_true)]
    cases hon : s.is_online with
    | false => rfl
    | true =>
      rw [if_pos rfl]
      simp only [sync_pet_to_remote_log]
      rfl
  · simp only [delete_pet]
    cases hon : s.is_online with
    | false => rfl
    | true =>
      rw [if_pos rfl]
      simp only [sync_pet_to_remote_log]
      rfl

/-- Closed instance of `mutation_journal_entry`: offline create, update and
soft-delete each append their single un-synced journal entry. -/
theorem mutation_journal_entry_witness :
    (create_pet sOffline "p2" "lg9" "2024-01-05T00:00:00" "u1" "Milo" "cat" "" 1 4 ""
      false).1 = some "p2"
    ∧ (create_pet sOffline "p2" "lg9" "2024-01-05T00:00:00" "u1" "Milo" "cat" "" 1 4 ""
        false).2.local_db.sync_log
      = [⟨"lg9", "pets", "p2", "INSERT", "2024-01-05T00:00:00", false⟩]
    ∧ (delete_pet sOffline "p2" "2024-01-05T00:00:00" "lg9" false).2.local_db.sync_log
      = [⟨"lg9", "pets", "p2", "DELETE", "2024-01-05T00:00:00", false⟩] := by
  have h := mutation_journal_entry sOffline "p2" "2024-01-05T00:00:00" "lg9" "u1" "Milo"
    "cat" "" "" 1 4 [("name", SqlVal.s "M")] false (by decide) (by decide)
  exact ⟨h.1.1, h.1.2, h.2.2.2⟩

/-- C8: soft-deleting a pet marks it `is_deleted = 1`, `sync_status =
'pending'` without removing the row (the row is still found by a raw lookup
by id); the normal read path `get_pet_by_id`, which excludes deleted rows,
reports not-found; and after a subsequent successful push the remote copy
carries the row with `is_deleted = 1` while the local read path still
reports not-found. -/
theorem soft_delete_propagates (s : DBM) (pid now log_id : String) (p : PetRow)
    (hoff : s.is_online = false)
    (hfind : s.local_db.pets.find? (fun q => q.id == pid) = some p) :
    ((delete_pet s pid now log_id false).2.local_db.pets.find? (fun q => q.id == pid)
        = some (delete_pet_apply now p))
    ∧ (delete_pet_apply now p).is_deleted = true
    ∧ (delete_pet_apply now p).sync_status = "pending"
    ∧ get_pet_by_id (delete_pet s pid now log_id false).2.local_db pid = none
    ∧ (sync_pet_to_remote
        { (delete_pet s pid now log_id false).2 with is_online := true } pid true).1 = true
    ∧ ((sync_pet_to_remote
        { (delete_pet s pid now log_id false).2 with is_online := true } pid
          true).2.remote_db.pets.find? (fun q => q.id == pid)
        = some { delete_pet_apply now p with sync_status := "synced" })
    ∧ ({ delete_pet_apply now p with sync_status := "synced" } : PetRow).is_deleted = true
    ∧ get_pet_by_id (sync_pet_to_remote
        { (delete_pet s pid now log_id false).2 with is_online := true } pid
          true).2.local_db pid = none := by
  have hpid : p.id = pid := by simpa using List.find?_some hfind
  subst hpid
  have hs1 : (delete_pet s p.id now log_id false).2
      = { s with local_db := delete_pet_write s.local_db p.id now log_id } := by
    simp only [delete_pet]
    rw [hoff, if_neg (by simp)]
  have hfindD : (delete_pet_write s.local_db p.id now log_id).pets.find?
      (fun q2 => q2.id == p.id) = some (delete_pet_apply now p) := by
    show (setBy (fun q => q.id) p.id (delete_pet_apply now) s.local_db.pets).find?
      (fun q2 => q2.id == p.id) = some (delete_pet_apply now p)
    rw [setBy_find_self (fun q => q.id) p.id (delete_pet_apply now) s.local_db.pets
      (fun y => (rfl : (delete_pet_apply now y).id = y.id)), hfind]
    rfl
  have hdelrows : ∀ y ∈ (delete_pet_write s.local_db p.id now log_id).pets,
      (y.id == p.id && y.is_deleted == false) = false := by
    intro y hy
    simp only [delete_pet_write, log_change, setBy] at hy
    obtain ⟨z, hz, hzeq⟩ := List.mem_map.mp hy
    by_cases h : z.id == p.id
    · rw [← hzeq]
      simp [h, delete_pet_apply]
    · rw [← hzeq]
      simp [h]
  have hnone1 : get_pet_by_id (delete_pet_write s.local_db p.id now log_id) p.id = none := by
    apply List.find?_eq_none.mpr
    intro y hy
    show ¬((y.id == p.id && y.is_deleted == false) = true)
    rw [hdelrows y hy]
    exact Bool.false_ne_true
  have hpets2 : (sync_pet_to_remote
      { { s with local_db := delete_pet_write s.local_db p.id now log_id } with
          is_online := true } p.id true).2.local_db.pets
      = setBy (fun q => q.id) p.id (fun q => { q with sync_status := "synced" })
          (delete_pet_write s.local_db p.id now log_id).pets := by
    simp [sync_pet_to_remote, hfindD]
  refine ⟨?_, rfl, rfl, ?_, ?_, ?_, rfl, ?_⟩
  · rw [hs1]
    exact hfindD
  · rw [hs1]
    exact hnone1
  · rw [hs1]
    simp [sync_pet_to_remote, hfindD]
  · rw [hs1]
    have hrp : (sync_pet_to_remote
        { { s with local_db := delete_pet_write s.local_db p.id now log_id } with
            is_online := true } p.id true).2.remote_db.pets
        = upsertBy (fun q => q.id) s.remote_db.pets
            { delete_pet_apply now p with sync_status := "synced" } := by
      simp [sync_pet_to_remote, hfindD]
    rw [hrp]
    exact upsertBy_find_self (fun q => q.id) s.remote_db.pets
      { delete_pet_apply now p with sync_status := "synced" }
  · rw [hs1]
    apply List.find?_eq_none.mpr
    intro y hy
    rw [hpets2] at hy
    simp only [setBy] at hy
    obtain ⟨z, hz, hzeq⟩ := List.mem_map.mp hy
    have hzdel := hdelrows z hz
    rw [← hzeq]
    show ¬(((if z.id == p.id then { z with sync_status := "synced" } else z).id == p.id
        && (if z.id == p.id then { z with sync_status := "synced" } else z).is_deleted
          == false) = true)
    by_cases h : z.id == p.id
    · rw [if_pos h]
      show ¬((z.id == p.id && z.is_deleted == false) = true)
      rw [hzdel]
      exact Bool.false_ne_true
    · rw [if_neg h]
      intro hcontra
      exact h ((Bool.and_eq_true _ _).mp hcontra).1

/-- Closed instance of `soft_delete_propagates` at a concrete state. -/
theorem soft_delete_propagates_witness :
    get_pet_by_id (delete_pet sOffline "p1" "2024-01-04T00:00:00" "lgD" false).2.local_db
      "p1" = none
    ∧ ((sync_pet_to_remote
        { (delete_pet sOffline "p1" "2024-01-04T00:00:00" "lgD" false).2 with
          is_online := true } "p1" true).2.remote_db.pets.find? (fun q => q.id == "p1")
      = some { delete_pet_apply "2024-01-04T00:00:00" samplePet with
               sync_status := "synced" })
    ∧ ({ delete_pet_apply "2024-01-04T00:00:00" samplePet with
         sync_status := "synced" } : PetRow).is_deleted = true := by
  have h := soft_delete_propagates sOffline "p1" "2024-01-04T00:00:00" "lgD" samplePet rfl
    (by decide)
  exact ⟨h.2.2.2.1, h.2.2.2.2.2.1, h.2.2.2.2.2.2.1⟩

/-- C9: `create_pet` performs no referential check on `user_id` — the schema
declares `FOREIGN KEY (user_id) REFERENCES users(id)` but the code never
issues the `foreign_keys` pragma that would make SQLite enforce it (and the
declared constraint would not exclude soft-deleted users anyway) — so
creating a pet whose `user_id` names no user at all succeeds and stores the
row, evaluated here at a database whose users table is empty. -/
theorem create_pet_no_owner_check :
    ((create_pet ⟨DB.empty, DB.empty, false⟩ "pet-1" "log-1" "2024-01-01T00:00:00"
        "ghost-user" "Rex" "dog" "" 0 0 "" false).1 = some "pet-1")
    ∧ ((create_pet ⟨DB.empty, DB.empty, false⟩ "pet-1" "log-1" "2024-01-01T00:00:00"
        "ghost-user" "Rex" "dog" "" 0 0 "" false).2.local_db.pets.map (fun p => p.user_id)
      = ["ghost-user"])
    ∧ (⟨DB.empty, DB.empty, false⟩ : DBM).local_db.users = [] := ⟨rfl, rfl, rfl⟩

/-- C10: when the keyword arguments contain no recognized mutable field
(empty, or only keys outside `allowed_fields`), `update_pet` returns `False`
and the state is entirely unchanged — no `updated_at` advance, no
`sync_status` change, no journal entry; and in any argument set the
unrecognized keys are silently filtered out rather than applied or
rejected: the call behaves exactly as with only the recognized keys. -/
theorem update_pet_no_valid_fields (s : DBM) (pid now log_id : String)
    (kwargs : List (String × SqlVal)) (ok : Bool) :
    ((kwargs.filter fun kv => allowed_fields.contains kv.1) = [] →
      update_pet s pid now log_id kwargs ok = (false, s))
    ∧ update_pet s pid now log_id kwargs ok
      = update_pet s pid now log_id (kwargs.filter fun kv => allowed_fields.contains kv.1)
          ok := by
  constructor
  · intro h
    simp only [update_pet, h, List.isEmpty_nil, if_true]
  · have hff : ((kwargs.filter fun kv => allowed_fields.contains kv.1).filter
        fun kv => allowed_fields.contains kv.1)
        = kwargs.filter fun kv => allowed_fields.contains kv.1 := by
      rw [List.filter_filter]
      simp only [Bool.and_self]
    simp only [update_pet, hff]

/-- Closed instance of `update_pet_no_valid_fields`: an argument set holding
only the unrecognized key `color` leaves the state untouched and returns
`False`. -/
theorem update_pet_no_valid_fields_witness :
    update_pet sOffline "p1" "2024-01-06T00:00:00" "lgU"
      [("color", SqlVal.s "red")] false = (false, sOffline) :=
  (update_pet_no_valid_fields sOffline "p1" "2024-01-06T00:00:00" "lgU"
    [("color", SqlVal.s "red")] false).1 (by decide)
